import Mathlib

/-!
Shallow embedding of the audio transform core of `audio-processor.js`
(class `AudioProcessor`): the slice operation `trimAudio`, the WAV encoder
(`createWavHeader`, `interleave`, `floatTo16BitPCM`, `bufferToWav`), the
in-place transforms `applyFade`, `applyGain`, `normalize`, and the timecode
parser `timeToSeconds`.

Modelling conventions.
JS numbers and `Float32Array` cells are modelled in exact arithmetic as
rationals; NaN is modelled explicitly, as `none` in `Option ℚ`, because the
source can produce it (an out-of-bounds typed-array read yields `undefined`,
and arithmetic on `undefined` yields NaN).  Typed-array stores at an
out-of-bounds index are silently ignored, exactly as in JS.  `Math.floor`
on an exact value is `Int.floor`.  Fallible operations return `Except`.
-/

namespace AudioProcessor

/-- A sample value as stored in a JS `Float32Array` cell: either a finite
number (modelled exactly as a rational) or NaN (modelled as `none`).
Out-of-bounds reads of a typed array give `undefined`, which arithmetic
turns into NaN and which a typed-array store records as NaN. -/
abbrev Samp := Option ℚ

/-- JS `Math.abs`; NaN propagates. -/
def jsAbs (s : Samp) : Samp := s.map (fun x => |x|)

/-- JS `Math.max` on two arguments; `Math.max` returns NaN when either
argument is NaN. -/
def jsMax (a b : Samp) : Samp :=
  match a, b with
  | some x, some y => some (max x y)
  | _, _ => none

/-- A compound assignment `cell *= g` with a finite scalar `g`; NaN
propagates. -/
def scaleS (g : ℚ) (s : Samp) : Samp := s.map (fun x => x * g)

/-- Read `d[k]` from a `Float32Array`: a negative or past-the-end index
gives `undefined`, i.e. NaN. -/
def readIdx (d : List Samp) (k : ℤ) : Samp :=
  if 0 ≤ k then d.getD k.toNat none else none

/-- A JS `for` loop of `n` iterations writing the typed array `d` at index
`pos i` on iteration `i`, with a value computed by `f` from the loop
counter and the cell currently stored there; a store at a negative or
past-the-end index is silently ignored, as a typed-array store is. -/
def updLoop (n : ℕ) (pos : ℕ → ℤ) (f : ℕ → Samp → Samp) (d : List Samp) :
    List Samp :=
  (List.range n).foldl
    (fun d i =>
      if 0 ≤ pos i then
        d.set (pos i).toNat (f i (d.getD (pos i).toNat none))
      else d) d

/-- The in-memory sample buffer: the fields of a Web Audio `AudioBuffer`
that the source reads.  `frameCount` is the buffer's `length` attribute
(frames per channel), and `channels` holds one `Float32Array` per channel;
`getChannelData(c)` is the `c`-th entry. -/
structure SampleBuffer where
  sampleRate : ℕ
  frameCount : ℕ
  channels : List (List Samp)
  deriving DecidableEq

/-- The `numberOfChannels` attribute: how many channel arrays there are. -/
def SampleBuffer.numberOfChannels (b : SampleBuffer) : ℕ := b.channels.length

/-- The data-model invariant: every channel sequence has length equal to
`frameCount`. -/
def WF (b : SampleBuffer) : Prop := ∀ ch ∈ b.channels, ch.length = b.frameCount

instance (b : SampleBuffer) : Decidable (WF b) := List.decidableBAll _ _

/-- Error thrown by the platform factory `createBuffer` when asked for a
buffer with a non-positive frame count (Web Audio `NotSupportedError`);
this is the only fallible step `trimAudio` performs. -/
inductive CreateBufferError where
  | notSupported
  deriving DecidableEq

/-- `AudioProcessor.trimAudio`: compute `startSample = ⌊startTime·rate⌋`
and `endSample = ⌊endTime·rate⌋`, allocate a fresh zero-filled buffer of
`endSample - startSample` frames via `createBuffer`, and copy
`channelData[startSample + i]` into frame `i` of every channel.  No range
check of any kind is made against the source buffer: a read past either
end of a channel yields NaN, which the store records. -/
def trimAudio (buffer : SampleBuffer) (startTime endTime : ℚ) :
    Except CreateBufferError SampleBuffer :=
  let sampleRate := buffer.sampleRate
  let startSample : ℤ := ⌊startTime * sampleRate⌋
  let endSample : ℤ := ⌊endTime * sampleRate⌋
  let frameCount : ℤ := endSample - startSample
  if frameCount ≤ 0 then .error .notSupported
  else .ok
    { sampleRate := buffer.sampleRate
      frameCount := frameCount.toNat
      channels := buffer.channels.map fun channelData =>
        updLoop frameCount.toNat (fun i => (i : ℤ))
          (fun i _ => readIdx channelData (startSample + i))
          (List.replicate frameCount.toNat (some 0)) }

/-- `AudioProcessor.applyGain`: `channelData[i] *= gain` for every `i`
below `buffer.length`, on every channel, in place. -/
def applyGain (buffer : SampleBuffer) (gain : ℚ) : SampleBuffer :=
  { buffer with
    channels := buffer.channels.map fun channelData =>
      updLoop buffer.frameCount (fun i => (i : ℤ))
        (fun _ s => scaleS gain s) channelData }

/-- `AudioProcessor.applyFade`: on every channel, scale sample `i` by
`i / fadeInSamples` for `i` below `fadeInSamples = ⌊fadeInDuration·rate⌋`,
then scale the sample at `startFadeOut + i = (length - fadeOutSamples) + i`
by `1 - i / fadeOutSamples` for `i` below `fadeOutSamples`.  A zero (or
negative) sample count leaves that loop body unexecuted, and stores at
negative indices (when `fadeOutSamples` exceeds the length) are ignored. -/
def applyFade (buffer : SampleBuffer) (fadeInDuration fadeOutDuration : ℚ) :
    SampleBuffer :=
  let sampleRate := buffer.sampleRate
  let fadeInSamples : ℤ := ⌊fadeInDuration * sampleRate⌋
  let fadeOutSamples : ℤ := ⌊fadeOutDuration * sampleRate⌋
  let startFadeOut : ℤ := (buffer.frameCount : ℤ) - fadeOutSamples
  { buffer with
    channels := buffer.channels.map fun channelData =>
      let faded := updLoop fadeInSamples.toNat (fun i => (i : ℤ))
        (fun i s => scaleS ((i : ℚ) / (fadeInSamples : ℚ)) s) channelData
      updLoop fadeOutSamples.toNat (fun i => startFadeOut + i)
        (fun i s => scaleS (1 - (i : ℚ) / (fadeOutSamples : ℚ)) s) faded }

/-- The peak scan of `AudioProcessor.normalize`: `maxAmplitude` starts at
`0` and takes `Math.max` with `Math.abs(channelData[i])` for every channel
and every `i` below `buffer.length` (an index past a channel's end reads
`undefined`, turning the running maximum into NaN). -/
def maxAmplitude (buffer : SampleBuffer) : Samp :=
  buffer.channels.foldl
    (fun acc channelData =>
      (List.range buffer.frameCount).foldl
        (fun acc i => jsMax acc (jsAbs (channelData.getD i none))) acc)
    (some 0)

/-- `AudioProcessor.normalize`: scan for the peak; when
`maxAmplitude > 0 && maxAmplitude < 1` (false when the scan produced NaN)
apply `applyGain` with `0.95 / maxAmplitude`, else return the buffer
unchanged. -/
def normalize (buffer : SampleBuffer) : SampleBuffer :=
  match maxAmplitude buffer with
  | some m => if 0 < m ∧ m < 1 then applyGain buffer (0.95 / m) else buffer
  | none => buffer

/-- Bytes of a JS `DataView.setUint16(off, v, true)` store: `v` is reduced
mod 2^16 and laid out little-endian. -/
def u16le (v : ℕ) : List ℕ := [v % 256, v / 256 % 256]

/-- Bytes of a `DataView.setUint32(off, v, true)` store: `v` mod 2^32,
little-endian. -/
def u32le (v : ℕ) : List ℕ :=
  [v % 256, v / 256 % 256, v / 256 ^ 2 % 256, v / 256 ^ 3 % 256]

/-- `AudioProcessor.writeString`: one byte per character, the character's
code unit (all four tags are ASCII). -/
def writeString (s : List Char) : List ℕ := s.map (fun c => c.toNat)

/-- Store a run of bytes into the byte list `l` one cell at a time from
offset `off` — the effect of the consecutive `setUint8`/`setUint16`/
`setUint32` stores a `DataView` write performs; every write of
`createWavHeader` lies within the 44-byte buffer. -/
def writeBytes (l : List ℕ) (off : ℕ) (w : List ℕ) : List ℕ :=
  match w with
  | [] => l
  | byte :: rest => writeBytes (l.set off byte) (off + 1) rest

/-- `AudioProcessor.createWavHeader`: the 13 `DataView` stores into a
fresh 44-byte buffer, in source order. -/
def createWavHeader (numChannels sampleRate length : ℕ) : List ℕ :=
  let bitsPerSample := 16
  let byteRate := sampleRate * numChannels * bitsPerSample / 8
  let blockAlign := numChannels * bitsPerSample / 8
  let dataSize := length * numChannels * bitsPerSample / 8
  let b := List.replicate 44 0
  let b := writeBytes b 0 (writeString ['R', 'I', 'F', 'F'])
  let b := writeBytes b 4 (u32le (36 + dataSize))
  let b := writeBytes b 8 (writeString ['W', 'A', 'V', 'E'])
  let b := writeBytes b 12 (writeString ['f', 'm', 't', ' '])
  let b := writeBytes b 16 (u32le 16)
  let b := writeBytes b 20 (u16le 1)
  let b := writeBytes b 22 (u16le numChannels)
  let b := writeBytes b 24 (u32le sampleRate)
  let b := writeBytes b 28 (u32le byteRate)
  let b := writeBytes b 32 (u16le blockAlign)
  let b := writeBytes b 34 (u16le 16)
  let b := writeBytes b 36 (writeString ['d', 'a', 't', 'a'])
  let b := writeBytes b 40 (u32le dataSize)
  b

/-- `AudioProcessor.interleave`: allocate a zero `Float32Array` of
`length * numChannels` cells and, channel by channel, store
`channelData[i]` at `i * numChannels + channel`. -/
def interleave (buffer : SampleBuffer) : List Samp :=
  let numChannels := buffer.numberOfChannels
  let length := buffer.frameCount
  (List.range numChannels).foldl
    (fun result channel =>
      let channelData := buffer.channels.getD channel []
      updLoop length (fun i => ((i * numChannels + channel : ℕ) : ℤ))
        (fun i _ => channelData.getD i none) result)
    (List.replicate (length * numChannels) (some 0))

/-- Truncation toward zero of an exact value: what a JS float-to-integer
conversion does to the fractional part. -/
def truncQ (q : ℚ) : ℤ := if q < 0 then ⌈q⌉ else ⌊q⌋

/-- Wrap an integer to the signed 16-bit range, as the `ToInt16` step of
an `Int16Array` store does. -/
def wrap16 (z : ℤ) : ℤ := (z + 32768) % 65536 - 32768

/-- One sample of `AudioProcessor.floatTo16BitPCM`: clamp with
`Math.max(-1, Math.min(1, x))`, scale by `0x8000` when negative else by
`0x7FFF`, and store into an `Int16Array` cell (truncation toward zero,
16-bit wrap; a NaN sample stores as 0). -/
def float2int16 (samp : Samp) : ℤ :=
  match samp with
  | none => 0
  | some x =>
    let s := max (-1) (min 1 x)
    wrap16 (truncQ (if s < 0 then s * 32768 else s * 32767))

/-- The little-endian byte pair of an `Int16Array` cell (two's
complement), as `new Uint8Array(int16Array.buffer)` exposes it. -/
def i16le (v : ℤ) : List ℕ :=
  [(v % 65536).toNat % 256, (v % 65536).toNat / 256]

/-- `AudioProcessor.floatTo16BitPCM` over a whole array, viewed as the
byte sequence of the backing store. -/
def floatTo16BitPCM (floatArray : List Samp) : List ℕ :=
  floatArray.flatMap (fun s => i16le (float2int16 s))

/-- `AudioProcessor.bufferToWav`: the header bytes followed by the PCM
bytes of the interleaved samples (the `Blob` wrapper adds nothing to the
byte content). -/
def bufferToWav (buffer : SampleBuffer) : List ℕ :=
  createWavHeader buffer.numberOfChannels buffer.sampleRate buffer.frameCount
    ++ floatTo16BitPCM (interleave buffer)

/-- JS addition where either operand may be NaN. -/
def jadd (a b : Samp) : Samp :=
  match a, b with
  | some x, some y => some (x + y)
  | _, _ => none

/-- JS multiplication of a possibly-NaN value by a finite literal. -/
def jmulc (a : Samp) (c : ℚ) : Samp := a.map (fun x => x * c)

/-- JS whitespace test for the characters `parseFloat` skips. -/
def isWS (c : Char) : Bool :=
  (c == ' ') || (c == '\t') || (c == '\n') || (c == '\r')

/-- Value of a digit run, most significant first. -/
def digitsToNat (ds : List Char) : ℕ :=
  ds.foldl (fun acc c => acc * 10 + (c.toNat - 48)) 0

/-- The exponent part of a JS decimal literal, after the `e`/`E`: optional
sign then digits; when no digit follows, the exponent part is not part of
the numeric prefix and contributes a factor of 1. -/
def expVal (r : List Char) : ℤ :=
  let es : ℤ :=
    match r with
    | '-' :: _ => -1
    | _ => 1
  let r1 : List Char :=
    match r with
    | '-' :: t => t
    | '+' :: t => t
    | _ => r
  let eds := r1.takeWhile Char.isDigit
  if eds.isEmpty then 0 else es * (digitsToNat eds : ℤ)

/-- JS `parseFloat`, modelled exactly for decimal literals: skip leading
whitespace, read an optional sign, integer digits, an optional fraction
and an optional exponent as the longest valid numeric prefix, ignore the
rest of the string, and yield NaN (`none`) when no digit was consumed.
The non-finite `Infinity` literal has no exact rational value and is not
modelled. -/
def parseFloat (s : List Char) : Option ℚ :=
  let s0 := s.dropWhile isWS
  let sgn : ℚ :=
    match s0 with
    | '-' :: _ => -1
    | _ => 1
  let s1 : List Char :=
    match s0 with
    | '-' :: r => r
    | '+' :: r => r
    | _ => s0
  let ds := s1.takeWhile Char.isDigit
  let s2 := s1.dropWhile Char.isDigit
  let fs : List Char :=
    match s2 with
    | '.' :: r => r.takeWhile Char.isDigit
    | _ => []
  let s3 : List Char :=
    match s2 with
    | '.' :: r => r.dropWhile Char.isDigit
    | _ => s2
  if ds.isEmpty && fs.isEmpty then none
  else
    let mant : ℚ := (digitsToNat ds : ℚ) + (digitsToNat fs : ℚ) / (10 : ℚ) ^ fs.length
    let ex : ℤ :=
      match s3 with
      | 'e' :: r => expVal r
      | 'E' :: r => expVal r
      | _ => 0
    some (sgn * (mant * (10 : ℚ) ^ ex))

/-- JS `String.prototype.split(':')` with no limit: the runs between
colons; the empty string splits to one empty part. -/
def splitColon (s : List Char) : List (List Char) :=
  match s with
  | [] => [[]]
  | c :: r =>
    let rest := splitColon r
    if c = ':' then [] :: rest
    else
      match rest with
      | p :: ps => (c :: p) :: ps
      | [] => [[c]]

/-- `AudioProcessor.timeToSeconds`: split on colons; for 3, 2 or 1 parts
accumulate `seconds += parseFloat(part) * weight` with weights 3600/60/1,
60/1, or 1, starting from `seconds = 0` (NaN-propagating JS arithmetic);
any other part count leaves `seconds = 0`; finally
`isNaN(seconds) ? 0 : seconds`. -/
def timeToSeconds (timeStr : List Char) : ℚ :=
  let parts := splitColon timeStr
  let seconds : Samp :=
    if parts.length = 3 then
      jadd (jadd (jadd (some 0) (jmulc (parseFloat (parts.getD 0 [])) 3600))
        (jmulc (parseFloat (parts.getD 1 [])) 60)) (parseFloat (parts.getD 2 []))
    else if parts.length = 2 then
      jadd (jadd (some 0) (jmulc (parseFloat (parts.getD 0 [])) 60))
        (parseFloat (parts.getD 1 []))
    else if parts.length = 1 then
      jadd (some 0) (parseFloat (parts.getD 0 []))
    else some 0
  seconds.getD 0

/-- `getChannelData(c)`: the `c`-th channel array. -/
def getChannelData (b : SampleBuffer) (c : ℕ) : List Samp := b.channels.getD c []

/-- The clamp step of the quantizer, as the source computes it:
`Math.max(-1, Math.min(1, x))`. -/
def clampJS (x : ℚ) : ℚ := max (-1) (min 1 x)

/-- Written from the spec's words for C3: clamp to `[-1, 1]`, scale by
`32768` when the clamped value is negative and by `32767` otherwise, and
truncate toward zero. -/
def quantizeSpec (x : ℚ) : ℤ :=
  truncQ (clampJS x * (if clampJS x < 0 then 32768 else 32767))

/-- Written from the spec's words for C4: the 44 header bytes listed in
the output-boundary layout, with `dataSize = frameCount·channelCount·2`. -/
def wavHeaderBytes (numChannels sampleRate frameCount : ℕ) : List ℕ :=
  writeString ['R', 'I', 'F', 'F'] ++ u32le (36 + frameCount * numChannels * 2) ++
  writeString ['W', 'A', 'V', 'E'] ++ writeString ['f', 'm', 't', ' '] ++
  u32le 16 ++ u16le 1 ++ u16le numChannels ++ u32le sampleRate ++
  u32le (sampleRate * numChannels * 2) ++ u16le (numChannels * 2) ++
  u16le 16 ++ writeString ['d', 'a', 't', 'a'] ++ u32le (frameCount * numChannels * 2)

/-- Written from the spec's words for C5: the fade-in ramp factor on
sample `j`: `j / fadeInSamples` inside the first `fadeInSamples` samples,
`1` outside (a zero ramp scales nothing). -/
def fadeInFactor (sampleRate : ℕ) (fadeInDuration : ℚ) (j : ℕ) : ℚ :=
  let n : ℤ := ⌊fadeInDuration * sampleRate⌋
  if (j : ℤ) < n then (j : ℚ) / (n : ℚ) else 1

/-- Written from the spec's words for C5: the fade-out ramp factor on
sample `j` of a buffer of `frameCount` frames: with
`i = j - (frameCount - fadeOutSamples)`, the factor `1 - i / fadeOutSamples`
on the last `fadeOutSamples` samples, `1` before them. -/
def fadeOutFactor (sampleRate frameCount : ℕ) (fadeOutDuration : ℚ) (j : ℕ) : ℚ :=
  let n : ℤ := ⌊fadeOutDuration * sampleRate⌋
  if (frameCount : ℤ) - n ≤ (j : ℤ) then
    1 - (((j : ℤ) - ((frameCount : ℤ) - n) : ℤ) : ℚ) / (n : ℚ)
  else 1


theorem updLoop_succ (n : ℕ) (pos : ℕ → ℤ) (f : ℕ → Samp → Samp)
    (d : List Samp) :
    updLoop (n + 1) pos f d =
      (if 0 ≤ pos n then
        (updLoop n pos f d).set (pos n).toNat
          (f n ((updLoop n pos f d).getD (pos n).toNat none))
      else updLoop n pos f d) := by
  simp [updLoop, List.range_succ]

@[simp] theorem updLoop_length (n : ℕ) (pos : ℕ → ℤ) (f : ℕ → Samp → Samp)
    (d : List Samp) : (updLoop n pos f d).length = d.length := by
  induction n with
  | zero => rfl
  | succ n ih =>
    rw [updLoop_succ]
    split <;> simp [ih]

/-- A loop iteration never writing position `j` leaves cell `j` unchanged. -/
theorem updLoop_getElem?_untouched (n : ℕ) (pos : ℕ → ℤ)
    (f : ℕ → Samp → Samp) (d : List Samp) (j : ℕ)
    (h : ∀ i, i < n → pos i ≠ (j : ℤ)) :
    (updLoop n pos f d)[j]? = d[j]? := by
  induction n with
  | zero => rfl
  | succ n ih =>
    rw [updLoop_succ]
    have hne : ∀ i, i < n → pos i ≠ (j : ℤ) := fun i hi => h i (Nat.lt_succ_of_lt hi)
    split
    · have : (pos n).toNat ≠ j := by
        intro hEq
        exact h n (Nat.lt_succ_self n) (by omega)
      rw [List.getElem?_set_ne this, ih hne]
    · exact ih hne

/-- When the positions written by the loop are pairwise distinct, the final
value of a written in-bounds cell is `f` applied at the unique iteration
that wrote it, reading the cell's original content. -/
theorem updLoop_getElem?_touched (n : ℕ) (pos : ℕ → ℤ)
    (f : ℕ → Samp → Samp) (d : List Samp) (i j : ℕ)
    (hinj : ∀ i₁ i₂, i₁ < n → i₂ < n → pos i₁ = pos i₂ → i₁ = i₂)
    (hi : i < n) (hpos : pos i = (j : ℤ)) (hj : j < d.length) :
    (updLoop n pos f d)[j]? = some (f i (d.getD j none)) := by
  induction n with
  | zero => omega
  | succ n ih =>
    rw [updLoop_succ]
    have hinj' : ∀ i₁ i₂, i₁ < n → i₂ < n → pos i₁ = pos i₂ → i₁ = i₂ :=
      fun i₁ i₂ h₁ h₂ => hinj i₁ i₂ (Nat.lt_succ_of_lt h₁) (Nat.lt_succ_of_lt h₂)
    rcases Nat.lt_succ_iff_lt_or_eq.mp hi with hlt | rfl
    · have hne : pos n ≠ (j : ℤ) := by
        intro hEq
        have := hinj n i (Nat.lt_succ_self n) (Nat.lt_succ_of_lt hlt) (hEq.trans hpos.symm)
        omega
      split
      · have : (pos n).toNat ≠ j := by intro hEq; exact hne (by omega)
        rw [List.getElem?_set_ne this]
        exact ih hinj' hlt
      · exact ih hinj' hlt
    · have h0 : (0 : ℤ) ≤ pos i := hpos ▸ Int.ofNat_nonneg j
      rw [if_pos h0]
      have htn : (pos i).toNat = j := by omega
      have hlen : j < (updLoop i pos f d).length := by simp [hj]
      have hunt : (updLoop i pos f d)[j]? = d[j]? :=
        updLoop_getElem?_untouched i pos f d j (by
          intro i' hi' hEq
          have := hinj i' i (Nat.lt_succ_of_lt hi') (Nat.lt_succ_self i) (hEq.trans hpos.symm)
          omega)
      rw [htn, List.getElem?_set_self hlen]
      congr 1
      rw [List.getD_eq_getElem?_getD, hunt, List.getD_eq_getElem?_getD]

/-- Stride-1 loop from index 0: cell `j` ends as `f j` of its old content
when the loop reaches it, and is untouched otherwise. -/
theorem updLoop_nat_getElem? (n : ℕ) (f : ℕ → Samp → Samp) (d : List Samp)
    (j : ℕ) :
    (updLoop n (fun i => (i : ℤ)) f d)[j]? =
      if j < n ∧ j < d.length then some (f j (d.getD j none)) else d[j]? := by
  by_cases hl : j < d.length
  · by_cases hn : j < n
    · rw [if_pos ⟨hn, hl⟩]
      exact updLoop_getElem?_touched n _ f d j j (fun i₁ i₂ _ _ h => by omega) hn rfl hl
    · rw [if_neg (fun h => hn h.1)]
      exact updLoop_getElem?_untouched n _ f d j (fun i hi hEq => by omega)
  · rw [if_neg (fun h => hl h.2)]
    have h1 : (updLoop n (fun i => (i : ℤ)) f d)[j]? = none := by
      rw [List.getElem?_eq_none]
      simp [Nat.le_of_not_lt hl]
    have h2 : d[j]? = none := by
      rw [List.getElem?_eq_none]
      exact Nat.le_of_not_lt hl
    rw [h1, h2]

/-- Stride-1 loop starting at a (possibly negative) base index: cell `j`
ends as `f (j - base)` of its old content when the loop reaches it, and is
untouched otherwise. -/
theorem updLoop_base_getElem? (n : ℕ) (base : ℤ) (f : ℕ → Samp → Samp)
    (d : List Samp) (j : ℕ) :
    (updLoop n (fun i => base + (i : ℤ)) f d)[j]? =
      if base ≤ (j : ℤ) ∧ (j : ℤ) < base + n ∧ j < d.length then
        some (f ((j : ℤ) - base).toNat (d.getD j none))
      else d[j]? := by
  by_cases hl : j < d.length
  · by_cases hn : base ≤ (j : ℤ) ∧ (j : ℤ) < base + n
    · rw [if_pos ⟨hn.1, hn.2, hl⟩]
      exact updLoop_getElem?_touched n _ f d ((j : ℤ) - base).toNat j
        (fun i₁ i₂ _ _ h => by omega) (by omega) (by omega) hl
    · rw [if_neg (fun h => hn ⟨h.1, h.2.1⟩)]
      exact updLoop_getElem?_untouched n _ f d j (fun i hi hEq => by omega)
  · rw [if_neg (fun h => hl h.2.2)]
    have h1 : (updLoop n (fun i => base + (i : ℤ)) f d)[j]? = none := by
      rw [List.getElem?_eq_none]
      simp [Nat.le_of_not_lt hl]
    have h2 : d[j]? = none := by
      rw [List.getElem?_eq_none]
      exact Nat.le_of_not_lt hl
    rw [h1, h2]



theorem getD_map_lt {α β : Type} (f : α → β) (l : List α) (c : ℕ) (d : α)
    (d' : β) (hc : c < l.length) : (l.map f).getD c d' = f (l.getD c d) := by
  rw [List.getD_eq_getElem?_getD, List.getElem?_map, List.getD_eq_getElem?_getD,
    List.getElem?_eq_getElem hc]
  rfl

theorem updLoop_nat_getD (n : ℕ) (f : ℕ → Samp → Samp) (d : List Samp)
    (j : ℕ) (hj : j < d.length) :
    (updLoop n (fun i => (i : ℤ)) f d).getD j none =
      if j < n then f j (d.getD j none) else d.getD j none := by
  rw [List.getD_eq_getElem?_getD, updLoop_nat_getElem?]
  by_cases hn : j < n
  · simp [hn, hj]
  · simp [hn, List.getD_eq_getElem?_getD]

theorem updLoop_base_getD (n : ℕ) (base : ℤ) (f : ℕ → Samp → Samp)
    (d : List Samp) (j : ℕ) (hj : j < d.length) :
    (updLoop n (fun i => base + (i : ℤ)) f d).getD j none =
      if base ≤ (j : ℤ) ∧ (j : ℤ) < base + n then
        f ((j : ℤ) - base).toNat (d.getD j none)
      else d.getD j none := by
  rw [List.getD_eq_getElem?_getD, updLoop_base_getElem?]
  by_cases hn : base ≤ (j : ℤ) ∧ (j : ℤ) < base + n
  · simp [hn, hj]
  · rw [if_neg (fun h => hn ⟨h.1, h.2.1⟩), if_neg hn, List.getD_eq_getElem?_getD]

/-- The `.ok` result `trimAudio` builds when the frame count is positive. -/
theorem trimAudio_ok_eq (b : SampleBuffer) (s e : ℚ)
    (h : 0 < ⌊e * (b.sampleRate : ℚ)⌋ - ⌊s * (b.sampleRate : ℚ)⌋) :
    trimAudio b s e = .ok
      { sampleRate := b.sampleRate
        frameCount := (⌊e * (b.sampleRate : ℚ)⌋ - ⌊s * (b.sampleRate : ℚ)⌋).toNat
        channels := b.channels.map fun channelData =>
          updLoop (⌊e * (b.sampleRate : ℚ)⌋ - ⌊s * (b.sampleRate : ℚ)⌋).toNat
            (fun i => (i : ℤ))
            (fun i _ => readIdx channelData (⌊s * (b.sampleRate : ℚ)⌋ + i))
            (List.replicate (⌊e * (b.sampleRate : ℚ)⌋ - ⌊s * (b.sampleRate : ℚ)⌋).toNat
              (some 0)) } := by
  simp only [trimAudio]
  rw [if_neg (by omega)]

/-- Frame `j` of a freshly copied channel is the source read at
`startSample + j`. -/
theorem trimChannel_getD (fc : ℕ) (st : ℤ) (ch : List Samp) (j : ℕ)
    (hj : j < fc) :
    (updLoop fc (fun i => (i : ℤ)) (fun i _ => readIdx ch (st + i))
        (List.replicate fc (some 0))).getD j none = readIdx ch (st + j) := by
  rw [updLoop_nat_getD _ _ _ _ (by simp [hj])]
  simp [hj]

/-- C2: for a well-formed buffer and a time range whose computed sample
indices satisfy the precondition, `trimAudio` succeeds with a buffer of
`⌊e·rate⌋ - ⌊s·rate⌋` frames whose channel `c` sample `i` is the original
channel `c` sample at `⌊s·rate⌋ + i`; its channel rows are freshly
allocated copies (the embedding builds them from a zero-filled buffer),
sharing nothing with the original. -/
theorem claim_C2 (b : SampleBuffer) (s e : ℚ) (hwf : WF b)
    (hs : 0 ≤ ⌊s * (b.sampleRate : ℚ)⌋)
    (he : ⌊e * (b.sampleRate : ℚ)⌋ ≤ (b.frameCount : ℤ))
    (hlt : ⌊s * (b.sampleRate : ℚ)⌋ < ⌊e * (b.sampleRate : ℚ)⌋) :
    ∃ nb, trimAudio b s e = .ok nb ∧
      nb.sampleRate = b.sampleRate ∧
      nb.numberOfChannels = b.numberOfChannels ∧
      (nb.frameCount : ℤ) = ⌊e * (b.sampleRate : ℚ)⌋ - ⌊s * (b.sampleRate : ℚ)⌋ ∧
      WF nb ∧
      ∀ c, c < b.numberOfChannels → ∀ i, i < nb.frameCount →
        (getChannelData nb c).getD i none =
          (getChannelData b c).getD (⌊s * (b.sampleRate : ℚ)⌋ + (i : ℤ)).toNat none := by
  refine ⟨_, trimAudio_ok_eq b s e (by omega), rfl, ?_, ?_, ?_, ?_⟩
  · simp [SampleBuffer.numberOfChannels]
  · simp
    omega
  · intro ch hch
    simp only [List.mem_map] at hch
    obtain ⟨ch₀, _, rfl⟩ := hch
    simp
  · intro c hc i hi
    simp only [SampleBuffer.numberOfChannels] at hc
    simp only at hi
    rw [getChannelData, getD_map_lt _ _ _ [] _ hc, trimChannel_getD _ _ _ _ hi,
      readIdx, if_pos (by omega)]
    rfl

/-- C2 witness at a concrete input. -/
theorem claim_C2_witness :
    ∃ nb, trimAudio ⟨2, 4, [[some 1, some 2, some 3, some 4]]⟩ (1/2) (3/2) = .ok nb ∧
      nb.sampleRate = 2 ∧
      nb.numberOfChannels = SampleBuffer.numberOfChannels ⟨2, 4, [[some 1, some 2, some 3, some 4]]⟩ ∧
      (nb.frameCount : ℤ) = ⌊(3/2 : ℚ) * ((2 : ℕ) : ℚ)⌋ - ⌊(1/2 : ℚ) * ((2 : ℕ) : ℚ)⌋ ∧
      WF nb ∧
      ∀ c, c < SampleBuffer.numberOfChannels ⟨2, 4, [[some 1, some 2, some 3, some 4]]⟩ →
        ∀ i, i < nb.frameCount →
        (getChannelData nb c).getD i none =
          (getChannelData ⟨2, 4, [[some 1, some 2, some 3, some 4]]⟩ c).getD
            (⌊(1/2 : ℚ) * ((2 : ℕ) : ℚ)⌋ + (i : ℤ)).toNat none :=
  claim_C2 ⟨2, 4, [[some 1, some 2, some 3, some 4]]⟩ (1/2) (3/2)
    (by decide) (by norm_num) (by norm_num) (by norm_num)

/-- C10: whenever `0 ≤ ⌊s·rate⌋ < ⌊e·rate⌋`, `trimAudio` performs no
bounds validation and signals no error: it returns a buffer of
`⌊e·rate⌋ - ⌊s·rate⌋` frames even when `⌊e·rate⌋` exceeds the source
frame count, and every frame whose source index falls at or past the end
of its source channel holds NaN rather than valid audio. -/
theorem claim_C10 (b : SampleBuffer) (s e : ℚ)
    (hs : 0 ≤ ⌊s * (b.sampleRate : ℚ)⌋)
    (hlt : ⌊s * (b.sampleRate : ℚ)⌋ < ⌊e * (b.sampleRate : ℚ)⌋) :
    ∃ nb, trimAudio b s e = .ok nb ∧
      (nb.frameCount : ℤ) = ⌊e * (b.sampleRate : ℚ)⌋ - ⌊s * (b.sampleRate : ℚ)⌋ ∧
      ∀ c, c < b.numberOfChannels → ∀ i, i < nb.frameCount →
        (getChannelData b c).length ≤ (⌊s * (b.sampleRate : ℚ)⌋ + (i : ℤ)).toNat →
        (getChannelData nb c).getD i none = none := by
  refine ⟨_, trimAudio_ok_eq b s e (by omega), ?_, ?_⟩
  · simp
    omega
  · intro c hc i hi hoob
    simp only [SampleBuffer.numberOfChannels] at hc
    simp only at hi
    simp only [getChannelData] at hoob ⊢
    rw [getD_map_lt _ _ _ [] _ hc, trimChannel_getD _ _ _ _ hi,
      readIdx, if_pos (by omega)]
    rw [List.getD_eq_getElem?_getD, List.getElem?_eq_none hoob]
    rfl

/-- C10 witness: a 2-frame mono source sliced with `[0, 5)` yields a
5-frame buffer whose frames 2..4 read past the source and hold NaN. -/
theorem claim_C10_witness :
    ∃ nb, trimAudio ⟨1, 2, [[some 1, some 2]]⟩ 0 5 = .ok nb ∧
      (nb.frameCount : ℤ) =
        ⌊(5 : ℚ) * ((1 : ℕ) : ℚ)⌋ - ⌊(0 : ℚ) * ((1 : ℕ) : ℚ)⌋ ∧
      ∀ c, c < SampleBuffer.numberOfChannels ⟨1, 2, [[some 1, some 2]]⟩ →
        ∀ i, i < nb.frameCount →
        (getChannelData ⟨1, 2, [[some 1, some 2]]⟩ c).length ≤
          (⌊(0 : ℚ) * ((1 : ℕ) : ℚ)⌋ + (i : ℤ)).toNat →
        (getChannelData nb c).getD i none = none :=
  claim_C10 ⟨1, 2, [[some 1, some 2]]⟩ 0 5 (by norm_num) (by norm_num)

/-- C1, the code's actual behaviour at an input violating the slice
precondition: a 2-frame mono source sliced with `[0, 5)` — so
`endIndex = 5` exceeds the original `frameCount = 2` — does not fail with
any error at all: `trimAudio` returns a 5-frame buffer whose last three
frames are NaN.  No range validation exists in the function and no
`InvalidRangeError` exists anywhere in the code. -/
theorem claim_C1_code_behavior :
    trimAudio ⟨1, 2, [[some 1, some 2]]⟩ 0 5 =
      .ok ⟨1, 5, [[some 1, some 2, none, none, none]]⟩ := by
  rw [trimAudio_ok_eq _ _ _ (by norm_num)]
  have h1 : ⌊(5 : ℚ) * (((1 : ℕ) : ℚ))⌋ = 5 := by norm_num
  have h0 : ⌊(0 : ℚ) * (((1 : ℕ) : ℚ))⌋ = 0 := by norm_num
  simp only [h1, h0]
  rfl


/-- C8: every transform preserves the buffer invariant.  `applyFade`,
`applyGain` and `normalize` keep `sampleRate`, `channelCount` and
`frameCount` and keep every channel at length `frameCount`; a successful
`trimAudio` keeps `sampleRate` and `channelCount`, its result satisfies
the invariant, and under the slice precondition (`0 ≤ startIndex` and
`endIndex ≤` the original frame count) its frame count does not exceed
the original. -/
theorem claim_C8 (b : SampleBuffer) (hwf : WF b) :
    (∀ fi fo : ℚ,
      (applyFade b fi fo).sampleRate = b.sampleRate ∧
      (applyFade b fi fo).numberOfChannels = b.numberOfChannels ∧
      (applyFade b fi fo).frameCount = b.frameCount ∧
      WF (applyFade b fi fo)) ∧
    (∀ g : ℚ,
      (applyGain b g).sampleRate = b.sampleRate ∧
      (applyGain b g).numberOfChannels = b.numberOfChannels ∧
      (applyGain b g).frameCount = b.frameCount ∧
      WF (applyGain b g)) ∧
    ((normalize b).sampleRate = b.sampleRate ∧
      (normalize b).numberOfChannels = b.numberOfChannels ∧
      (normalize b).frameCount = b.frameCount ∧
      WF (normalize b)) ∧
    (∀ s e : ℚ, ∀ nb, trimAudio b s e = .ok nb →
      nb.sampleRate = b.sampleRate ∧
      nb.numberOfChannels = b.numberOfChannels ∧
      WF nb ∧
      (0 ≤ ⌊s * (b.sampleRate : ℚ)⌋ → ⌊e * (b.sampleRate : ℚ)⌋ ≤ (b.frameCount : ℤ) →
        nb.frameCount ≤ b.frameCount)) := by
  have hgain : ∀ g : ℚ,
      (applyGain b g).sampleRate = b.sampleRate ∧
      (applyGain b g).numberOfChannels = b.numberOfChannels ∧
      (applyGain b g).frameCount = b.frameCount ∧
      WF (applyGain b g) := by
    intro g
    refine ⟨rfl, by simp [applyGain, SampleBuffer.numberOfChannels], rfl, ?_⟩
    intro ch hch
    simp only [applyGain, List.mem_map] at hch
    obtain ⟨ch₀, hch₀, rfl⟩ := hch
    simp [applyGain, hwf ch₀ hch₀]
  refine ⟨?_, hgain, ?_, ?_⟩
  · intro fi fo
    refine ⟨rfl, by simp [applyFade, SampleBuffer.numberOfChannels], rfl, ?_⟩
    intro ch hch
    simp only [applyFade, List.mem_map] at hch
    obtain ⟨ch₀, hch₀, rfl⟩ := hch
    simp [applyFade, hwf ch₀ hch₀]
  · rw [normalize]
    split
    · split
      · exact hgain _
      · exact ⟨rfl, rfl, rfl, hwf⟩
    · exact ⟨rfl, rfl, rfl, hwf⟩
  · intro s e nb h
    by_cases hfc : ⌊e * (b.sampleRate : ℚ)⌋ - ⌊s * (b.sampleRate : ℚ)⌋ ≤ 0
    · simp only [trimAudio] at h
      rw [if_pos hfc] at h
      cases h
    · rw [trimAudio_ok_eq b s e (by omega)] at h
      cases h
      refine ⟨rfl, by simp [SampleBuffer.numberOfChannels], ?_, ?_⟩
      · intro ch hch
        simp only [List.mem_map] at hch
        obtain ⟨ch₀, _, rfl⟩ := hch
        simp
      · intro hs he
        show (⌊e * (b.sampleRate : ℚ)⌋ - ⌊s * (b.sampleRate : ℚ)⌋).toNat ≤ b.frameCount
        omega

/-- C8 witness: the invariant after each in-place transform of a concrete
buffer. -/
theorem claim_C8_witness :
    WF (applyFade ⟨1, 2, [[some 1, some 2]]⟩ 1 1) ∧
    WF (applyGain ⟨1, 2, [[some 1, some 2]]⟩ 2) ∧
    WF (normalize ⟨1, 2, [[some 1, some 2]]⟩) :=
  ⟨((claim_C8 ⟨1, 2, [[some 1, some 2]]⟩ (by decide)).1 1 1).2.2.2,
   ((claim_C8 ⟨1, 2, [[some 1, some 2]]⟩ (by decide)).2.1 2).2.2.2,
   (claim_C8 ⟨1, 2, [[some 1, some 2]]⟩ (by decide)).2.2.1.2.2.2⟩


/-- C5: `applyFade` keeps the buffer's shape, and scales sample `j` of
every channel by the fade-in ramp factor and then by the fade-out ramp
factor.  A zero-length ramp contributes factor 1 everywhere (so fading
with durations 0 and 0 scales every sample by `1·1`), and where the two
ramps overlap both factors apply multiplicatively. -/
theorem claim_C5 (b : SampleBuffer) (fi fo : ℚ) (hwf : WF b)
    (hfi : 0 ≤ fi) (hfo : 0 ≤ fo) :
    (applyFade b fi fo).sampleRate = b.sampleRate ∧
    (applyFade b fi fo).frameCount = b.frameCount ∧
    (applyFade b fi fo).numberOfChannels = b.numberOfChannels ∧
    ∀ c, c < b.numberOfChannels → ∀ j, j < b.frameCount →
      (getChannelData (applyFade b fi fo) c).getD j none =
        ((getChannelData b c).getD j none).map
          (fun x => x * fadeInFactor b.sampleRate fi j *
            fadeOutFactor b.sampleRate b.frameCount fo j) := by
  refine ⟨rfl, rfl, by simp [applyFade, SampleBuffer.numberOfChannels], ?_⟩
  intro c hc j hj
  have hc' : c < b.channels.length := hc
  have hch : b.channels.getD c [] ∈ b.channels := by
    rw [List.getD_eq_getElem?_getD, List.getElem?_eq_getElem hc']
    exact List.getElem_mem hc'
  have hlen : (b.channels.getD c []).length = b.frameCount := hwf _ hch
  simp only [getChannelData, applyFade]
  rw [getD_map_lt _ _ _ [] _ hc']
  have hd1len :
      (updLoop (⌊fi * (b.sampleRate : ℚ)⌋).toNat (fun i => (i : ℤ))
        (fun i s => scaleS ((i : ℚ) / ((⌊fi * (b.sampleRate : ℚ)⌋ : ℤ) : ℚ)) s)
        (b.channels.getD c [])).length = b.frameCount := by
    rw [updLoop_length, hlen]
  rw [updLoop_base_getD _ _ _ _ _ (by omega)]
  rw [updLoop_nat_getD _ _ _ _ (by omega)]
  have hjL : (j : ℤ) < (b.frameCount : ℤ) := by exact_mod_cast hj
  by_cases hIn : j < (⌊fi * (b.sampleRate : ℚ)⌋).toNat
  · rw [if_pos hIn]
    have hInZ : (j : ℤ) < ⌊fi * (b.sampleRate : ℚ)⌋ := by omega
    by_cases hOut : ((b.frameCount : ℤ) - ⌊fo * (b.sampleRate : ℚ)⌋) ≤ (j : ℤ) ∧
        (j : ℤ) < ((b.frameCount : ℤ) - ⌊fo * (b.sampleRate : ℚ)⌋) +
          ((⌊fo * (b.sampleRate : ℚ)⌋).toNat : ℤ)
    · rw [if_pos hOut]
      have h0 : (0 : ℤ) ≤ (j : ℤ) - ((b.frameCount : ℤ) - ⌊fo * (b.sampleRate : ℚ)⌋) := by
        omega
      have hcast : ((((j : ℤ) - ((b.frameCount : ℤ) - ⌊fo * (b.sampleRate : ℚ)⌋)).toNat : ℕ) : ℚ) =
          (((j : ℤ) - ((b.frameCount : ℤ) - ⌊fo * (b.sampleRate : ℚ)⌋) : ℤ) : ℚ) := by
        exact_mod_cast Int.toNat_of_nonneg h0
      rcases hs : (b.channels.getD c []).getD j none with _ | x
      · rfl
      · simp [scaleS, fadeInFactor, fadeOutFactor, hInZ, hOut.1, hcast, mul_assoc]
    · rw [if_neg hOut]
      have hOutZ : ¬ ((b.frameCount : ℤ) - ⌊fo * (b.sampleRate : ℚ)⌋ ≤ (j : ℤ)) := by
        omega
      rcases hs : (b.channels.getD c []).getD j none with _ | x
      · rfl
      · simp [scaleS, fadeInFactor, fadeOutFactor, hInZ, hOutZ]
  · rw [if_neg hIn]
    have hInZ : ¬ ((j : ℤ) < ⌊fi * (b.sampleRate : ℚ)⌋) := by omega
    by_cases hOut : ((b.frameCount : ℤ) - ⌊fo * (b.sampleRate : ℚ)⌋) ≤ (j : ℤ) ∧
        (j : ℤ) < ((b.frameCount : ℤ) - ⌊fo * (b.sampleRate : ℚ)⌋) +
          ((⌊fo * (b.sampleRate : ℚ)⌋).toNat : ℤ)
    · rw [if_pos hOut]
      have h0 : (0 : ℤ) ≤ (j : ℤ) - ((b.frameCount : ℤ) - ⌊fo * (b.sampleRate : ℚ)⌋) := by
        omega
      have hcast : ((((j : ℤ) - ((b.frameCount : ℤ) - ⌊fo * (b.sampleRate : ℚ)⌋)).toNat : ℕ) : ℚ) =
          (((j : ℤ) - ((b.frameCount : ℤ) - ⌊fo * (b.sampleRate : ℚ)⌋) : ℤ) : ℚ) := by
        exact_mod_cast Int.toNat_of_nonneg h0
      rcases hs : (b.channels.getD c []).getD j none with _ | x
      · rfl
      · simp [scaleS, fadeInFactor, fadeOutFactor, hInZ, hOut.1, hcast]
    · rw [if_neg hOut]
      have hOutZ : ¬ ((b.frameCount : ℤ) - ⌊fo * (b.sampleRate : ℚ)⌋ ≤ (j : ℤ)) := by
        omega
      rcases hs : (b.channels.getD c []).getD j none with _ | x
      · rfl
      · simp [fadeInFactor, fadeOutFactor, hInZ, hOutZ]

/-- C5 witness: sample 1 of a concrete 4-frame buffer faded 2s in, 2s out. -/
theorem claim_C5_witness :
    (getChannelData (applyFade ⟨1, 4, [[some 1, some 1, some 1, some 1]]⟩ 2 2) 0).getD 1 none =
      ((getChannelData ⟨1, 4, [[some 1, some 1, some 1, some 1]]⟩ 0).getD 1 none).map
        (fun x => x * fadeInFactor 1 2 1 * fadeOutFactor 1 4 2 1) :=
  (claim_C5 ⟨1, 4, [[some 1, some 1, some 1, some 1]]⟩ 2 2 (by decide)
    (by norm_num) (by norm_num)).2.2.2 0 (by decide) 1 (by decide)


/-- Reading a gained channel inside the scan bound scales the read. -/
theorem gainChannel_getD (L : ℕ) (g : ℚ) (ch : List Samp) (i : ℕ) (hi : i < L) :
    (updLoop L (fun k => (k : ℤ)) (fun _ s => scaleS g s) ch).getD i none =
      scaleS g (ch.getD i none) := by
  by_cases hc : i < ch.length
  · rw [updLoop_nat_getD _ _ _ _ hc, if_pos hi]
  · rw [List.getD_eq_getElem?_getD, List.getElem?_eq_none (by simp [Nat.le_of_not_lt hc]),
      List.getD_eq_getElem?_getD, List.getElem?_eq_none (Nat.le_of_not_lt hc)]
    rfl

theorem jsAbs_scaleS (g : ℚ) (hg : 0 ≤ g) (s : Samp) :
    jsAbs (scaleS g s) = scaleS g (jsAbs s) := by
  rcases s with _ | x
  · rfl
  · simp [jsAbs, scaleS, abs_mul, abs_of_nonneg hg]

theorem jsMax_scaleS (g : ℚ) (hg : 0 ≤ g) (a b : Samp) :
    jsMax (scaleS g a) (scaleS g b) = scaleS g (jsMax a b) := by
  rcases a with _ | x <;> rcases b with _ | y <;> simp [jsMax, scaleS]
  exact (max_mul_of_nonneg x y hg).symm

theorem foldl_range_congr {α : Type} (n : ℕ) (f g : α → ℕ → α) (a : α)
    (h : ∀ acc i, i < n → f acc i = g acc i) :
    (List.range n).foldl f a = (List.range n).foldl g a := by
  induction n with
  | zero => rfl
  | succ n ih =>
    rw [List.range_succ, List.foldl_append, List.foldl_append]
    rw [ih (fun acc i hi => h acc i (Nat.lt_succ_of_lt hi))]
    simp only [List.foldl_cons, List.foldl_nil]
    exact h _ n (Nat.lt_succ_self n)

/-- The running `Math.max` of absolute values commutes with a uniform
non-negative scaling of the reads. -/
theorem foldMax_scale (g : ℚ) (hg : 0 ≤ g) (n : ℕ) (r : ℕ → Samp) (acc : Samp) :
    (List.range n).foldl (fun a i => jsMax a (jsAbs (scaleS g (r i)))) (scaleS g acc) =
      scaleS g ((List.range n).foldl (fun a i => jsMax a (jsAbs (r i))) acc) := by
  induction n generalizing acc with
  | zero => rfl
  | succ n ih =>
    rw [List.range_succ, List.foldl_append, List.foldl_append]
    simp only [List.foldl_cons, List.foldl_nil]
    rw [ih, jsAbs_scaleS g hg, jsMax_scaleS g hg]

/-- Scanning the gained channels from a scaled accumulator scales the
whole scan. -/
theorem foldChannels_scale (g : ℚ) (hg : 0 ≤ g) (L : ℕ) (chs : List (List Samp)) :
    ∀ acc : Samp,
    chs.foldl (fun a ch => (List.range L).foldl
        (fun a i => jsMax a (jsAbs
          ((updLoop L (fun k => (k : ℤ)) (fun _ s => scaleS g s) ch).getD i none))) a)
      (scaleS g acc) =
      scaleS g (chs.foldl (fun a ch => (List.range L).foldl
        (fun a i => jsMax a (jsAbs (ch.getD i none))) a) acc) := by
  induction chs with
  | nil => intro acc; rfl
  | cons ch chs ih =>
    intro acc
    simp only [List.foldl_cons]
    rw [foldl_range_congr _ _
        (fun a i => jsMax a (jsAbs (scaleS g (ch.getD i none)))) _
        (fun acc i hi => by rw [gainChannel_getD L g ch i hi]),
      foldMax_scale g hg]
    exact ih _

/-- The peak of a buffer after `applyGain` with a non-negative gain is the
old peak scaled by the gain. -/
theorem maxAmp_applyGain (b : SampleBuffer) (g : ℚ) (hg : 0 ≤ g) :
    maxAmplitude (applyGain b g) = scaleS g (maxAmplitude b) := by
  have h0 : (some (0 : ℚ) : Samp) = scaleS g (some 0) := by simp [scaleS]
  rw [maxAmplitude, maxAmplitude, applyGain]
  simp only [List.foldl_map]
  conv_lhs => rw [h0]
  exact foldChannels_scale g hg b.frameCount b.channels (some 0)

/-- Gain `1` is the identity on the buffer. -/
theorem applyGain_one (b : SampleBuffer) : applyGain b 1 = b := by
  obtain ⟨rate, L, chs⟩ := b
  simp only [applyGain]
  congr 1
  calc chs.map (fun ch => updLoop L (fun k => (k : ℤ)) (fun _ s => scaleS 1 s) ch)
      = chs.map id := by
        apply List.map_congr_left
        intro ch _
        apply List.ext_getElem?
        intro j
        rw [updLoop_nat_getElem?]
        by_cases hj : j < L ∧ j < ch.length
        · rw [if_pos hj, List.getD_eq_getElem?_getD, List.getElem?_eq_getElem hj.2]
          simp [scaleS, List.getElem?_eq_getElem hj.2]
        · rw [if_neg hj]
          rfl
    _ = chs := List.map_id chs

/-- C6: `normalize` is idempotent — a second application yields exactly the
same buffer as the first (in exact arithmetic a first application on a
peak strictly between 0 and 1 leaves the new peak at exactly 0.95, so the
second applies gain `0.95/0.95 = 1`; all other peaks leave the buffer
unchanged by every application). -/
theorem claim_C6 (b : SampleBuffer) : normalize (normalize b) = normalize b := by
  rcases hm : maxAmplitude b with _ | m
  · have h1 : normalize b = b := by simp only [normalize, hm]
    rw [h1, h1]
  · by_cases hcond : 0 < m ∧ m < 1
    · have h1 : normalize b = applyGain b (0.95 / m) := by
        simp only [normalize, hm, if_pos hcond]
      have hg : (0 : ℚ) ≤ 0.95 / m := div_nonneg (by norm_num) (le_of_lt hcond.1)
      have hm95 : m * (0.95 / m) = 0.95 := by
        rw [mul_comm]
        exact div_mul_cancel₀ _ (ne_of_gt hcond.1)
      have h2 : maxAmplitude (applyGain b (0.95 / m)) = some 0.95 := by
        rw [maxAmp_applyGain _ _ hg, hm]
        simp [scaleS, hm95]
      rw [h1]
      have h3 : normalize (applyGain b (0.95 / m)) =
          applyGain (applyGain b (0.95 / m)) (0.95 / 0.95) := by
        simp only [normalize, h2]
        rw [if_pos (by norm_num)]
      rw [h3]
      have h95 : (0.95 : ℚ) / 0.95 = 1 := by norm_num
      rw [h95, applyGain_one]
    · have h1 : normalize b = b := by simp only [normalize, hm, if_neg hcond]
      rw [h1, h1]


/-- `wrap16` is the identity on the signed 16-bit range. -/
theorem wrap16_eq_self (z : ℤ) (h1 : -32768 ≤ z) (h2 : z ≤ 32767) :
    wrap16 z = z := by
  unfold wrap16
  omega

/-- C3: on every finite sample the quantizer computes exactly
`truncQ (clamp(x) · (if clamp(x) < 0 then 32768 else 32767))` — clamp to
`[-1, 1]`, asymmetric scale, truncation toward zero, no rounding to
nearest — and the result always lies in `[-32768, 32767]`. -/
theorem claim_C3 (x : ℚ) :
    float2int16 (some x) = quantizeSpec x ∧
    -32768 ≤ float2int16 (some x) ∧ float2int16 (some x) ≤ 32767 := by
  have hlo : -1 ≤ clampJS x := le_max_left _ _
  have hhi : clampJS x ≤ 1 := by
    rw [clampJS, max_le_iff]
    constructor
    · norm_num
    · exact min_le_left _ _
  have hrange : -32768 ≤ truncQ (clampJS x * (if clampJS x < 0 then 32768 else 32767)) ∧
      truncQ (clampJS x * (if clampJS x < 0 then 32768 else 32767)) ≤ 32767 := by
    by_cases hneg : clampJS x < 0
    · rw [if_pos hneg]
      have hml : (-32768 : ℚ) ≤ clampJS x * 32768 := by nlinarith
      have hmh : clampJS x * 32768 ≤ 0 := by nlinarith
      rw [truncQ, if_pos (by nlinarith)]
      constructor
      · calc (-32768 : ℤ) = ⌈(-32768 : ℚ)⌉ := by
              rw [show ((-32768 : ℚ)) = (((-32768 : ℤ) : ℚ)) by norm_num, Int.ceil_intCast]
          _ ≤ ⌈clampJS x * 32768⌉ := Int.ceil_le_ceil hml
      · calc ⌈clampJS x * 32768⌉ ≤ ⌈(0 : ℚ)⌉ := Int.ceil_le_ceil hmh
          _ ≤ 32767 := by norm_num
    · rw [if_neg hneg]
      push_neg at hneg
      have hml : (0 : ℚ) ≤ clampJS x * 32767 := by nlinarith
      have hmh : clampJS x * 32767 ≤ 32767 := by nlinarith
      rw [truncQ, if_neg (by nlinarith)]
      constructor
      · calc (-32768 : ℤ) ≤ ⌊(0 : ℚ)⌋ := by norm_num
          _ ≤ ⌊clampJS x * 32767⌋ := Int.floor_le_floor hml
      · calc ⌊clampJS x * 32767⌋ ≤ ⌊(32767 : ℚ)⌋ := Int.floor_le_floor hmh
          _ = 32767 := by
              rw [show ((32767 : ℚ)) = (((32767 : ℤ) : ℚ)) by norm_num, Int.floor_intCast]
  have heq : float2int16 (some x) = quantizeSpec x := by
    rw [float2int16, quantizeSpec]
    show wrap16 (truncQ (if clampJS x < 0 then clampJS x * 32768 else clampJS x * 32767)) = _
    have harg : (if clampJS x < 0 then clampJS x * 32768 else clampJS x * 32767) =
        clampJS x * (if clampJS x < 0 then 32768 else 32767) := by
      by_cases hneg : clampJS x < 0 <;> simp [hneg]
    rw [harg, wrap16_eq_self _ hrange.1 hrange.2]
  rw [heq, quantizeSpec]
  exact ⟨rfl, hrange.1, hrange.2⟩


/-- Length of the partially interleaved array after any number of channel
passes. -/
theorem interleaveAux_length (L C : ℕ) (chan : ℕ → List Samp) (c₀ : ℕ) :
    ((List.range c₀).foldl
      (fun result channel =>
        updLoop L (fun i => ((i * C + channel : ℕ) : ℤ))
          (fun i _ => (chan channel).getD i none) result)
      (List.replicate (L * C) (some 0))).length = L * C := by
  induction c₀ with
  | zero => simp
  | succ c₀ ih =>
    rw [List.range_succ, List.foldl_append]
    simp only [List.foldl_cons, List.foldl_nil, updLoop_length]
    exact ih

/-- After interleaving the first `c₀` channels, the cell for frame `f` of
channel `c < c₀` holds that channel's sample `f`. -/
theorem interleaveAux_getElem? (L C : ℕ) (chan : ℕ → List Samp) (c₀ : ℕ)
    (hc₀ : c₀ ≤ C) (f c : ℕ) (hf : f < L) (hc : c < c₀) :
    ((List.range c₀).foldl
      (fun result channel =>
        updLoop L (fun i => ((i * C + channel : ℕ) : ℤ))
          (fun i _ => (chan channel).getD i none) result)
      (List.replicate (L * C) (some 0)))[f * C + c]? =
      some ((chan c).getD f none) := by
  induction c₀ with
  | zero => omega
  | succ c₀ ih =>
    rw [List.range_succ, List.foldl_append]
    simp only [List.foldl_cons, List.foldl_nil]
    have hcC : c < C := by omega
    have hidx : f * C + c < L * C := by
      calc f * C + c < f * C + C := by omega
        _ = (f + 1) * C := by ring
        _ ≤ L * C := Nat.mul_le_mul_right C (by omega)
    rcases Nat.lt_succ_iff_lt_or_eq.mp hc with hlt | rfl
    · rw [updLoop_getElem?_untouched]
      · exact ih (by omega) hlt
      · intro i hi hEq
        have hEqN : i * C + c₀ = f * C + c := by exact_mod_cast hEq
        have hm := congrArg (fun n => n % C) hEqN
        simp only at hm
        rw [Nat.add_comm (i * C) c₀, Nat.add_mul_mod_self_right] at hm
        rw [Nat.add_comm (f * C) c, Nat.add_mul_mod_self_right] at hm
        rw [Nat.mod_eq_of_lt (by omega), Nat.mod_eq_of_lt hcC] at hm
        omega
    · have hinj : ∀ i₁ i₂, i₁ < L → i₂ < L →
          ((i₁ * C + c : ℕ) : ℤ) = ((i₂ * C + c : ℕ) : ℤ) → i₁ = i₂ := by
        intro i₁ i₂ h₁ h₂ hEq
        have hEqN : i₁ * C + c = i₂ * C + c := by exact_mod_cast hEq
        have hmul : i₁ * C = i₂ * C := by omega
        exact Nat.eq_of_mul_eq_mul_right (by omega) hmul
      have hjlen : f * C + c <
          ((List.range c).foldl
            (fun result channel =>
              updLoop L (fun i => ((i * C + channel : ℕ) : ℤ))
                (fun i _ => (chan channel).getD i none) result)
            (List.replicate (L * C) (some 0))).length := by
        rw [interleaveAux_length]
        exact hidx
      rw [updLoop_getElem?_touched _ _ _ _ f (f * C + c) hinj hf rfl hjlen]

/-- The interleaved array, position by position: cell `p` holds channel
`p mod numChannels` at frame `p div numChannels`, i.e. cell
`frame·numChannels + channel` holds that channel's sample at that frame. -/
theorem interleave_eq_map (b : SampleBuffer) :
    interleave b = (List.range (b.frameCount * b.numberOfChannels)).map
      (fun p => (b.channels.getD (p % b.numberOfChannels) []).getD
        (p / b.numberOfChannels) none) := by
  apply List.ext_getElem?
  intro j
  by_cases hj : j < b.frameCount * b.numberOfChannels
  · have hC : 0 < b.numberOfChannels := by
      rcases Nat.eq_zero_or_pos b.numberOfChannels with h0 | h
      · rw [h0, Nat.mul_zero] at hj; omega
      · exact h
    have hmod : j % b.numberOfChannels < b.numberOfChannels := Nat.mod_lt _ hC
    have hdiv : j / b.numberOfChannels < b.frameCount := by
      rw [Nat.div_lt_iff_lt_mul hC]
      omega
    have hsplit : (j / b.numberOfChannels) * b.numberOfChannels +
        j % b.numberOfChannels = j := Nat.div_add_mod' j b.numberOfChannels
    have hL : (interleave b)[(j / b.numberOfChannels) * b.numberOfChannels +
        j % b.numberOfChannels]? =
        some ((b.channels.getD (j % b.numberOfChannels) []).getD
          (j / b.numberOfChannels) none) := by
      rw [interleave]
      exact interleaveAux_getElem? b.frameCount b.numberOfChannels
        (fun channel => b.channels.getD channel []) b.numberOfChannels
        le_rfl (j / b.numberOfChannels) (j % b.numberOfChannels) hdiv hmod
    rw [hsplit] at hL
    rw [hL, List.getElem?_map, List.getElem?_range hj]
    rfl
  · rw [List.getElem?_eq_none, List.getElem?_eq_none]
    · simp [Nat.le_of_not_lt hj]
    · rw [interleave, interleaveAux_length]
      exact Nat.le_of_not_lt hj

/-- Writing a byte run at the boundary between a prefix and a suffix
overwrites the start of the suffix. -/
theorem writeBytes_eq (w : List ℕ) : ∀ (p r : List ℕ) (off : ℕ),
    off = p.length → w.length ≤ r.length →
    writeBytes (p ++ r) off w = (p ++ w) ++ r.drop w.length := by
  induction w with
  | nil =>
    intro p r off hoff h
    simp [writeBytes]
  | cons byte rest ih =>
    intro p r off hoff h
    cases r with
    | nil => simp at h
    | cons b₀ r' =>
      subst hoff
      rw [writeBytes]
      have hset : (p ++ b₀ :: r').set p.length byte = (p ++ [byte]) ++ r' := by
        rw [List.set_append_right _ _ (le_refl _), Nat.sub_self, List.set_cons_zero,
          List.append_assoc]
        rfl
      rw [hset, ih (p ++ [byte]) r' _ (by simp) (by simpa using h)]
      simp [List.append_assoc]

/-- The header builder produces exactly the 44 bytes of the layout in the
specification, with the byte rate, block align and data size reduced to
`rate·C·2`, `C·2` and `L·C·2`. -/
theorem createWavHeader_eq (numChannels sampleRate length : ℕ) :
    createWavHeader numChannels sampleRate length =
      wavHeaderBytes numChannels sampleRate length := by
  have h1 : sampleRate * numChannels * 16 / 8 = sampleRate * numChannels * 2 := by
    omega
  have h2 : numChannels * 16 / 8 = numChannels * 2 := by omega
  have h3 : length * numChannels * 16 / 8 = length * numChannels * 2 := by omega
  simp only [createWavHeader, h1, h2, h3]
  rw [show (List.replicate 44 (0 : ℕ)) = [] ++ List.replicate 44 0 from rfl]
  rw [writeBytes_eq _ _ _ _ (by simp [writeString, u32le, u16le]) (by simp [writeString, u32le, u16le])]
  rw [writeBytes_eq _ _ _ _ (by simp [writeString, u32le, u16le]) (by simp [writeString, u32le, u16le])]
  rw [writeBytes_eq _ _ _ _ (by simp [writeString, u32le, u16le]) (by simp [writeString, u32le, u16le])]
  rw [writeBytes_eq _ _ _ _ (by simp [writeString, u32le, u16le]) (by simp [writeString, u32le, u16le])]
  rw [writeBytes_eq _ _ _ _ (by simp [writeString, u32le, u16le]) (by simp [writeString, u32le, u16le])]
  rw [writeBytes_eq _ _ _ _ (by simp [writeString, u32le, u16le]) (by simp [writeString, u32le, u16le])]
  rw [writeBytes_eq _ _ _ _ (by simp [writeString, u32le, u16le]) (by simp [writeString, u32le, u16le])]
  rw [writeBytes_eq _ _ _ _ (by simp [writeString, u32le, u16le]) (by simp [writeString, u32le, u16le])]
  rw [writeBytes_eq _ _ _ _ (by simp [writeString, u32le, u16le]) (by simp [writeString, u32le, u16le])]
  rw [writeBytes_eq _ _ _ _ (by simp [writeString, u32le, u16le]) (by simp [writeString, u32le, u16le])]
  rw [writeBytes_eq _ _ _ _ (by simp [writeString, u32le, u16le]) (by simp [writeString, u32le, u16le])]
  rw [writeBytes_eq _ _ _ _ (by simp [writeString, u32le, u16le]) (by simp [writeString, u32le, u16le])]
  rw [writeBytes_eq _ _ _ _ (by simp [writeString, u32le, u16le]) (by simp [writeString, u32le, u16le])]
  simp [wavHeaderBytes, writeString, u32le, u16le, List.append_assoc]

/-- C4: for a buffer with at least one channel, the encoder output is the
specified 44-byte little-endian header followed by the 16-bit quantized
samples, two little-endian bytes per sample, laid out frame-major: byte
pair `p = frame·channelCount + channel` of the payload holds channel
`p mod channelCount` at frame `p div channelCount`. -/
theorem claim_C4 (b : SampleBuffer) (hC : 0 < b.numberOfChannels) :
    bufferToWav b =
      wavHeaderBytes b.numberOfChannels b.sampleRate b.frameCount ++
      (List.range (b.frameCount * b.numberOfChannels)).flatMap
        (fun p => i16le (float2int16
          ((getChannelData b (p % b.numberOfChannels)).getD
            (p / b.numberOfChannels) none))) := by
  rw [bufferToWav, createWavHeader_eq]
  congr 1
  rw [floatTo16BitPCM, interleave_eq_map, List.flatMap_map]
  rfl

/-- C4 witness: the full byte sequence of a concrete two-channel buffer. -/
theorem claim_C4_witness :
    bufferToWav ⟨3, 2, [[some 1, some (-1)], [some 0, some (1/2)]]⟩ =
      wavHeaderBytes
        (SampleBuffer.numberOfChannels ⟨3, 2, [[some 1, some (-1)], [some 0, some (1/2)]]⟩)
        3 2 ++
      (List.range (2 * SampleBuffer.numberOfChannels
          ⟨3, 2, [[some 1, some (-1)], [some 0, some (1/2)]]⟩)).flatMap
        (fun p => i16le (float2int16
          ((getChannelData ⟨3, 2, [[some 1, some (-1)], [some 0, some (1/2)]]⟩
              (p % SampleBuffer.numberOfChannels
                ⟨3, 2, [[some 1, some (-1)], [some 0, some (1/2)]]⟩)).getD
            (p / SampleBuffer.numberOfChannels
              ⟨3, 2, [[some 1, some (-1)], [some 0, some (1/2)]]⟩) none))) :=
  claim_C4 ⟨3, 2, [[some 1, some (-1)], [some 0, some (1/2)]]⟩ (by decide)


theorem jadd_none_right (a : Samp) : jadd a none = none := by
  rcases a with _ | x <;> rfl

theorem jadd_none_left (b : Samp) : jadd none b = none := rfl

theorem jadd_some_some (x y : ℚ) : jadd (some x) (some y) = some (x + y) := rfl

theorem jmulc_none (c : ℚ) : jmulc none c = none := rfl

theorem jmulc_some (x c : ℚ) : jmulc (some x) c = some (x * c) := rfl

/-- C7: `timeToSeconds` splits on colons and weights the parts 3600/60/1
for three parts, 60/1 for two, and 1 for one; whenever any part of a 1-,
2- or 3-part input fails to parse as a float the result is 0 (the
function is total and never fails); and on the four reference inputs it
returns 3723.5, 123.5, 5.25 and 0. -/
theorem claim_C7 :
    (∀ s : List Char, ∀ h m sec : ℚ,
      (splitColon s).length = 3 →
      parseFloat ((splitColon s).getD 0 []) = some h →
      parseFloat ((splitColon s).getD 1 []) = some m →
      parseFloat ((splitColon s).getD 2 []) = some sec →
      timeToSeconds s = h * 3600 + m * 60 + sec) ∧
    (∀ s : List Char, ∀ m sec : ℚ,
      (splitColon s).length = 2 →
      parseFloat ((splitColon s).getD 0 []) = some m →
      parseFloat ((splitColon s).getD 1 []) = some sec →
      timeToSeconds s = m * 60 + sec) ∧
    (∀ s : List Char, ∀ sec : ℚ,
      (splitColon s).length = 1 →
      parseFloat ((splitColon s).getD 0 []) = some sec →
      timeToSeconds s = sec) ∧
    (∀ s : List Char, (splitColon s).length ≤ 3 →
      (∃ p ∈ splitColon s, parseFloat p = none) →
      timeToSeconds s = 0) ∧
    timeToSeconds "01:02:03.500".toList = 3723.5 ∧
    timeToSeconds "02:03.500".toList = 123.5 ∧
    timeToSeconds "5.25".toList = 5.25 ∧
    timeToSeconds "not-a-time".toList = 0 := by
  refine ⟨?_, ?_, ?_, ?_, ?_, ?_, ?_, ?_⟩
  · intro s h m sec hlen h0 h1 h2
    simp only [timeToSeconds]
    rw [if_pos hlen, h0, h1, h2, jmulc_some, jmulc_some, jadd_some_some,
      jadd_some_some, jadd_some_some, Option.getD_some]
    ring
  · intro s m sec hlen h0 h1
    simp only [timeToSeconds]
    rw [if_neg (by omega), if_pos hlen, h0, h1, jmulc_some, jadd_some_some,
      jadd_some_some, Option.getD_some]
    ring
  · intro s sec hlen h0
    simp only [timeToSeconds]
    rw [if_neg (by omega), if_neg (by omega), if_pos hlen, h0, jadd_some_some,
      Option.getD_some]
    ring
  · intro s hlen hex
    obtain ⟨p, hp, hnone⟩ := hex
    obtain ⟨i, hi, rfl⟩ := List.mem_iff_getElem.mp hp
    have hnone' : parseFloat ((splitColon s).getD i []) = none := by
      rw [List.getD_eq_getElem?_getD, List.getElem?_eq_getElem hi]
      exact hnone
    simp only [timeToSeconds]
    by_cases h3 : (splitColon s).length = 3
    · rw [if_pos h3]
      have hi3 : i < 3 := h3 ▸ hi
      interval_cases i
      · rw [hnone', jmulc_none, jadd_none_right, jadd_none_left, jadd_none_left]
        rfl
      · rw [hnone', jmulc_none, jadd_none_right, jadd_none_left]
        rfl
      · rw [hnone', jadd_none_right]
        rfl
    · rw [if_neg h3]
      by_cases h2 : (splitColon s).length = 2
      · rw [if_pos h2]
        have hi2 : i < 2 := h2 ▸ hi
        interval_cases i
        · rw [hnone', jmulc_none, jadd_none_right, jadd_none_left]
          rfl
        · rw [hnone', jadd_none_right]
          rfl
      · rw [if_neg h2]
        by_cases h1 : (splitColon s).length = 1
        · rw [if_pos h1]
          have hi1 : i < 1 := h1 ▸ hi
          interval_cases i
          rw [hnone', jadd_none_right]
          rfl
        · rw [if_neg h1]
          rfl
  · show timeToSeconds
        ['0', '1', ':', '0', '2', ':', '0', '3', '.', '5', '0', '0'] = 3723.5
    have hlen : (splitColon
        ['0', '1', ':', '0', '2', ':', '0', '3', '.', '5', '0', '0']).length = 3 := rfl
    have h0 : parseFloat ((splitColon
        ['0', '1', ':', '0', '2', ':', '0', '3', '.', '5', '0', '0']).getD 0 []) =
        some ((1 : ℚ) * ((((1 : ℕ) : ℚ) + ((0 : ℕ) : ℚ) / 10 ^ (0 : ℕ)) * 10 ^ (0 : ℤ))) := rfl
    have h1 : parseFloat ((splitColon
        ['0', '1', ':', '0', '2', ':', '0', '3', '.', '5', '0', '0']).getD 1 []) =
        some ((1 : ℚ) * ((((2 : ℕ) : ℚ) + ((0 : ℕ) : ℚ) / 10 ^ (0 : ℕ)) * 10 ^ (0 : ℤ))) := rfl
    have h2 : parseFloat ((splitColon
        ['0', '1', ':', '0', '2', ':', '0', '3', '.', '5', '0', '0']).getD 2 []) =
        some ((1 : ℚ) * ((((3 : ℕ) : ℚ) + ((500 : ℕ) : ℚ) / 10 ^ (3 : ℕ)) * 10 ^ (0 : ℤ))) := rfl
    simp only [timeToSeconds]
    rw [if_pos hlen, h0, h1, h2, jmulc_some, jmulc_some, jadd_some_some,
      jadd_some_some, jadd_some_some, Option.getD_some]
    norm_num
  · show timeToSeconds ['0', '2', ':', '0', '3', '.', '5', '0', '0'] = 123.5
    have hlen : (splitColon ['0', '2', ':', '0', '3', '.', '5', '0', '0']).length = 2 := rfl
    have h0 : parseFloat ((splitColon ['0', '2', ':', '0', '3', '.', '5', '0', '0']).getD 0 []) =
        some ((1 : ℚ) * ((((2 : ℕ) : ℚ) + ((0 : ℕ) : ℚ) / 10 ^ (0 : ℕ)) * 10 ^ (0 : ℤ))) := rfl
    have h1 : parseFloat ((splitColon ['0', '2', ':', '0', '3', '.', '5', '0', '0']).getD 1 []) =
        some ((1 : ℚ) * ((((3 : ℕ) : ℚ) + ((500 : ℕ) : ℚ) / 10 ^ (3 : ℕ)) * 10 ^ (0 : ℤ))) := rfl
    simp only [timeToSeconds]
    rw [if_neg (by omega), if_pos hlen, h0, h1, jmulc_some, jadd_some_some,
      jadd_some_some, Option.getD_some]
    norm_num
  · show timeToSeconds ['5', '.', '2', '5'] = 5.25
    have hlen : (splitColon ['5', '.', '2', '5']).length = 1 := rfl
    have h0 : parseFloat ((splitColon ['5', '.', '2', '5']).getD 0 []) =
        some ((1 : ℚ) * ((((5 : ℕ) : ℚ) + ((25 : ℕ) : ℚ) / 10 ^ (2 : ℕ)) * 10 ^ (0 : ℤ))) := rfl
    simp only [timeToSeconds]
    rw [if_neg (by omega), if_neg (by omega), if_pos hlen, h0, jadd_some_some,
      Option.getD_some]
    norm_num
  · show timeToSeconds ['n', 'o', 't', '-', 'a', '-', 't', 'i', 'm', 'e'] = 0
    have hlen : (splitColon ['n', 'o', 't', '-', 'a', '-', 't', 'i', 'm', 'e']).length = 1 := rfl
    have h0 : parseFloat ((splitColon ['n', 'o', 't', '-', 'a', '-', 't', 'i', 'm', 'e']).getD 0 []) =
        none := rfl
    simp only [timeToSeconds]
    rw [if_neg (by omega), if_neg (by omega), if_pos hlen, h0, jadd_none_right]
    rfl

/-- C7 witness: the three-part clause at the reference input. -/
theorem claim_C7_witness :
    timeToSeconds "01:02:03.500".toList =
      ((1 : ℚ) * ((((1 : ℕ) : ℚ) + ((0 : ℕ) : ℚ) / 10 ^ (0 : ℕ)) * 10 ^ (0 : ℤ))) * 3600 +
      ((1 : ℚ) * ((((2 : ℕ) : ℚ) + ((0 : ℕ) : ℚ) / 10 ^ (0 : ℕ)) * 10 ^ (0 : ℤ))) * 60 +
      ((1 : ℚ) * ((((3 : ℕ) : ℚ) + ((500 : ℕ) : ℚ) / 10 ^ (3 : ℕ)) * 10 ^ (0 : ℤ))) :=
  claim_C7.1 "01:02:03.500".toList _ _ _ rfl rfl rfl rfl


/-- Copying a whole channel (`startSample = 0`) into a fresh buffer of the
channel's own length reproduces the channel exactly. -/
theorem trimChannel_copy_id (ch : List Samp) (L : ℕ) (hlen : ch.length = L) :
    updLoop L (fun i => (i : ℤ)) (fun i _ => readIdx ch (0 + (i : ℤ)))
      (List.replicate L (some 0)) = ch := by
  apply List.ext_getElem?
  intro j
  by_cases hj : j < L
  · have hjc : j < ch.length := by omega
    rw [updLoop_nat_getElem?, if_pos (by simp [hj])]
    rw [readIdx, if_pos (by omega)]
    have ht : ((0 : ℤ) + (j : ℤ)).toNat = j := by omega
    rw [ht, List.getD_eq_getElem?_getD, List.getElem?_eq_getElem hjc]
    rfl
  · rw [List.getElem?_eq_none (by simp [Nat.le_of_not_lt hj]),
      List.getElem?_eq_none (by omega)]

/-- Slicing a well-formed buffer with the full range `[0, L/rate)` is an
exact copy: in exact arithmetic `⌊(L/rate)·rate⌋ = L`, so every channel
is copied whole. -/
theorem trimAudio_full (b : SampleBuffer) (hr : 0 < b.sampleRate)
    (hL : 0 < b.frameCount) (hwf : WF b) :
    trimAudio b 0 ((b.frameCount : ℚ) / (b.sampleRate : ℚ)) = .ok b := by
  have hrQ : ((b.sampleRate : ℕ) : ℚ) ≠ 0 := Nat.cast_ne_zero.mpr (by omega)
  have hen : ⌊((b.frameCount : ℚ) / (b.sampleRate : ℚ)) * (b.sampleRate : ℚ)⌋ =
      (b.frameCount : ℤ) := by
    rw [div_mul_cancel₀ _ hrQ, Int.floor_natCast]
  have hst : ⌊(0 : ℚ) * ((b.sampleRate : ℕ) : ℚ)⌋ = (0 : ℤ) := by norm_num
  rw [trimAudio_ok_eq _ _ _ (by rw [hen, hst]; omega)]
  rw [hen, hst]
  obtain ⟨rate, L, chs⟩ := b
  simp only at hwf ⊢
  congr 1
  refine SampleBuffer.mk.injEq .. ▸ ?_
  refine ⟨rfl, by omega, ?_⟩
  have : ((L : ℤ) - 0).toNat = L := by omega
  rw [this]
  calc chs.map (fun ch => updLoop L (fun i => (i : ℤ))
        (fun i _ => readIdx ch (0 + (i : ℤ))) (List.replicate L (some 0)))
      = chs.map id := by
        apply List.map_congr_left
        intro ch hch
        exact trimChannel_copy_id ch L (hwf ch hch)
    _ = chs := List.map_id chs

/-- C9 counterexample: the one-channel buffer with sample rate 44100 and
zero frames is valid in the claim's sense (positive sample rate and
channel count, every channel length equal to `frameCount`), yet slicing
it over `[0, frameCount/sampleRate) = [0, 0)` computes a zero frame
count and fails in `createBuffer`, so there is no sliced buffer to
encode at all. -/
theorem claim_C9_counterexample :
    0 < SampleBuffer.sampleRate ⟨44100, 0, [[]]⟩ ∧
    0 < SampleBuffer.numberOfChannels ⟨44100, 0, [[]]⟩ ∧
    WF ⟨44100, 0, [[]]⟩ ∧
    ∀ nb, trimAudio ⟨44100, 0, [[]]⟩ 0
        ((SampleBuffer.frameCount ⟨44100, 0, [[]]⟩ : ℚ) /
          (SampleBuffer.sampleRate ⟨44100, 0, [[]]⟩ : ℚ)) ≠ .ok nb := by
  refine ⟨by decide, by decide, by decide, ?_⟩
  intro nb
  simp only [trimAudio]
  rw [if_pos (by norm_num)]
  intro h
  cases h

/-- C9, amended with a positive frame count: slicing a valid, non-empty
buffer with the full range `[0, frameCount/sampleRate)` succeeds, and the
encoded sample payload (the bytes after the 44-byte header) of the slice
is bit-identical to the payload of encoding the unsliced buffer. -/
theorem claim_C9_amended (b : SampleBuffer) (hr : 0 < b.sampleRate)
    (hC : 0 < b.numberOfChannels) (hL : 0 < b.frameCount) (hwf : WF b) :
    ∃ nb, trimAudio b 0 ((b.frameCount : ℚ) / (b.sampleRate : ℚ)) = .ok nb ∧
      (bufferToWav nb).drop 44 = (bufferToWav b).drop 44 :=
  ⟨b, trimAudio_full b hr hL hwf, rfl⟩

/-- C9 witness at a concrete one-frame buffer. -/
theorem claim_C9_amended_witness :
    ∃ nb, trimAudio ⟨1, 1, [[some 0]]⟩ 0
        ((SampleBuffer.frameCount ⟨1, 1, [[some 0]]⟩ : ℚ) /
          (SampleBuffer.sampleRate ⟨1, 1, [[some 0]]⟩ : ℚ)) = .ok nb ∧
      (bufferToWav nb).drop 44 = (bufferToWav ⟨1, 1, [[some 0]]⟩).drop 44 :=
  claim_C9_amended ⟨1, 1, [[some 0]]⟩ (by decide) (by decide) (by decide) (by decide)

end AudioProcessor
